import Mathlib

/-!
Verification of the Crawl Scheduling & Ingestion Pipeline core
(politeness engine, rate limiter, crawl executor, job scheduler,
chunking, hybrid retrieval) against its natural-language specification.

Each TypeScript function named in the claims is shallowly embedded as an
executable Lean definition, translated line by line from the source.
JavaScript numbers that only ever hold integer values are modelled as
`Nat`/`Int`; time values and similarity scores are modelled as `Rat`
(JS floats behave exactly like rationals on every operation used here:
addition, subtraction, multiplication by small constants, comparison).
JavaScript strings are modelled as `String`/`List Char`.
-/

set_option autoImplicit false

namespace AssureCode

/-! ### JavaScript string primitives used by the source -/

/-- The whitespace class trimmed by JavaScript `String.prototype.trim`
(space, tab, line terminators, vertical tab, form feed, NBSP, BOM). -/
def jsIsSpace (c : Char) : Bool :=
  c = ' ' || c = '\t' || c = '\n' || c = '\r' ||
  c = Char.ofNat 11 || c = Char.ofNat 12 ||
  c = Char.ofNat 0xa0 || c = Char.ofNat 0xfeff ||
  c = Char.ofNat 0x2028 || c = Char.ofNat 0x2029

/-- JavaScript `trim` on a character list: drop whitespace at both ends. -/
def jsTrimList (s : List Char) : List Char :=
  ((s.dropWhile jsIsSpace).reverse.dropWhile jsIsSpace).reverse

/-- JavaScript `String.prototype.trim`. -/
def jsTrim (s : String) : String :=
  ⟨jsTrimList s.data⟩

/-- The JavaScript line-terminator class, which `.` in a regular expression
without the `s` flag does not match. -/
def jsLineTerm (c : Char) : Bool :=
  c = '\n' || c = '\r' || c = Char.ofNat 0x2028 || c = Char.ofNat 0x2029

/-! ### Politeness engine: `src/robots-txt-parser.ts`

`matchesPattern` builds a regular expression from a robots.txt pattern:
every regex metacharacter (including `$`) is first escaped with a
backslash, then `*` (which the escape class does not contain) is replaced
by `.*`, and finally `.replace(/\$/g, "$")` rewrites the character `$` to
itself, a no-op.  Hence, semantically, every pattern character other than
`*` is a literal (`$` included), and `*` becomes `.*`.  The regex is
anchored with `^` at the start only, and `RegExp.test` asks whether the
expression matches at position 0, i.e. whether some prefix of the path is
matched. -/

/-- Semantic tokens of the regex produced by `matchesPattern`:
a literal character, or `.*` coming from `*`. -/
inductive RTok where
  | lit (c : Char)
  | star
  deriving DecidableEq

/-- Token list of the regex `matchesPattern` builds from a pattern:
`*` becomes `.*`; every other character (after escaping) is a literal. -/
def robotsTokens (pat : List Char) : List RTok :=
  pat.map (fun c => if c = '*' then RTok.star else RTok.lit c)

/-- The suffixes of `s` that `.*` can leave behind: it consumes any
number of characters from the front, but never a line terminator. -/
def starSuffixes : List Char → List (List Char)
  | [] => [[]]
  | x :: xs => (x :: xs) :: (if jsLineTerm x then [] else starSuffixes xs)

/-- Does the token list match some prefix of `s`?  This is exactly
`new RegExp("^" + r).test(s)` for the regexes produced above: matching
starts at position 0 and the end is unanchored; `.` (from `.*`) matches
any character except a line terminator, so `.*` consumes any run of
non-line-terminator characters. -/
def toksMatch : List RTok → List Char → Bool
  | [], _ => true
  | RTok.lit _ :: _, [] => false
  | RTok.lit c :: ts, x :: xs => c = x && toksMatch ts xs
  | RTok.star :: ts, s => (starSuffixes s).any (fun s2 => toksMatch ts s2)

/-- `RobotsTxtParser.matchesPattern(path, pattern)`. -/
def matchesPattern (path pattern : String) : Bool :=
  toksMatch (robotsTokens pattern.data) path.data

/-- Tokens of the pattern language the specification describes:
`*` matches any character sequence, `$` anchors the end of the string,
every other character is literal. -/
inductive STok where
  | lit (c : Char)
  | star
  | endAnchor
  deriving DecidableEq

/-- Modelled from the spec: token list under the specification's reading,
in which `$` anchors end-of-string instead of being escaped. -/
def specTokens (pat : List Char) : List STok :=
  pat.map (fun c =>
    if c = '*' then STok.star
    else if c = '$' then STok.endAnchor
    else STok.lit c)

/-- Modelled from the spec: prefix matching where `endAnchor` succeeds
only at the end of the whole path and `star` matches any character
sequence (so it can leave behind any suffix, `List.tails`). -/
def specToksMatch : List STok → List Char → Bool
  | [], _ => true
  | STok.endAnchor :: ts, s => s.isEmpty && specToksMatch ts s
  | STok.lit _ :: _, [] => false
  | STok.lit c :: ts, x :: xs => c = x && specToksMatch ts xs
  | STok.star :: ts, s => s.tails.any (fun s2 => specToksMatch ts s2)

/-- Modelled from the spec: the pattern-match relation §4.1 describes. -/
def specMatchesPattern (path pattern : String) : Bool :=
  specToksMatch (specTokens pattern.data) path.data

/-- `RobotsTxtRule` from `src/robots-txt-parser.ts`.  The source stores
`Number.parseFloat(value)` for `crawl-delay`; no verified claim touches
the numeric value, so the raw directive text is kept instead of
modelling the JavaScript float parser. -/
structure RobotsTxtRule where
  userAgent : String
  disallow : List String
  allow : List String
  crawlDelay : Option String := none
  sitemap : Option (List String) := none
  deriving DecidableEq

/-- A JavaScript `Map` with string keys, as an insertion-ordered
association list.  `set` overwrites in place, `get` finds the entry. -/
def mapSet {α : Type} (m : List (String × α)) (k : String) (v : α) :
    List (String × α) :=
  match m with
  | [] => [(k, v)]
  | (k0, v0) :: rest =>
    if k0 = k then (k0, v) :: rest else (k0, v0) :: mapSet rest k v

/-- JavaScript `Map.get` (as an `Option`). -/
def mapGet {α : Type} (m : List (String × α)) (k : String) : Option α :=
  match m with
  | [] => none
  | (k0, v0) :: rest => if k0 = k then some v0 else mapGet rest k

/-- JavaScript `Map.has`. -/
def mapHas {α : Type} (m : List (String × α)) (k : String) : Bool :=
  (mapGet m k).isSome

/-- The parser's loop state: rules saved so far plus the block being
built (`currentUserAgent` / `currentRule` in the source). -/
structure ParseState where
  rules : List (String × RobotsTxtRule)
  currentUA : Option String
  currentRule : Option RobotsTxtRule

/-- One iteration of the `parse` loop over an already-trimmed line. -/
def parseLine (st : ParseState) (line : String) : ParseState :=
  if line.startsWith "#" || line.length = 0 then st
  else
    match line.splitOn ":" with
    | [] => st
    | key :: valueParts =>
      let value := jsTrim (String.intercalate ":" valueParts)
      if key = "" || value = "" then st
      else
        let nk := key.toLower
        if nk = "user-agent" then
          { rules :=
              match st.currentUA, st.currentRule with
              | some ua, some r => mapSet st.rules ua r
              | _, _ => st.rules,
            currentUA := some value.toLower,
            currentRule := some { userAgent := value, disallow := [], allow := [] } }
        else
          match st.currentRule with
          | none => st
          | some r =>
            if nk = "disallow" then
              { st with currentRule := some { r with disallow := r.disallow ++ [value] } }
            else if nk = "allow" then
              { st with currentRule := some { r with allow := r.allow ++ [value] } }
            else if nk = "crawl-delay" then
              { st with currentRule := some { r with crawlDelay := some value } }
            else if nk = "sitemap" then
              { st with currentRule := some { r with sitemap := some (r.sitemap.getD [] ++ [value]) } }
            else st

/-- The parsed state of a `RobotsTxtParser` object: the rule map and the
default rule used when the agent has no entry. -/
structure RobotsTxt where
  rules : List (String × RobotsTxtRule)
  defaultRule : RobotsTxtRule
  deriving DecidableEq

/-- The initial `defaultRule` field value. -/
def emptyRule : RobotsTxtRule :=
  { userAgent := "*", disallow := [], allow := [] }

/-- `RobotsTxtParser.parse`: split on newlines, trim each line, run the
line loop, save the last open block, and set the default rule to the
`*` entry when present. -/
def parseRobots (content : String) : RobotsTxt :=
  let lines := (content.splitOn "\n").map jsTrim
  let st := lines.foldl parseLine { rules := [], currentUA := none, currentRule := none }
  let rules :=
    match st.currentUA, st.currentRule with
    | some ua, some r => mapSet st.rules ua r
    | _, _ => st.rules
  { rules := rules, defaultRule := (mapGet rules "*").getD emptyRule }

/-- Rule selection in `isAllowed`:
`this.rules.get(userAgent.toLowerCase()) || this.defaultRule`. -/
def selectRule (p : RobotsTxt) (userAgent : String) : RobotsTxtRule :=
  (mapGet p.rules userAgent.toLower).getD p.defaultRule

/-- `RobotsTxtParser.isAllowed` on the URL's pathname: allow patterns are
scanned first in listed order (first match returns `true`), then
disallow patterns (first match returns `false`), else `true`. -/
def isAllowed (p : RobotsTxt) (path userAgent : String) : Bool :=
  let rule := selectRule p userAgent
  if rule.allow.any (fun pat => matchesPattern path pat) then true
  else if rule.disallow.any (fun pat => matchesPattern path pat) then false
  else true

/-- Claim C1: for every parsed crawl-policy document, agent name and
path, `isAllowed` consults the rule set registered for the lowercased
agent name when present, else the default (wildcard) rule set; it
returns `true` exactly when some allow pattern matches the path (even
if a disallow pattern also matches) or no pattern of either list
matches, and `false` exactly when no allow pattern matches but some
disallow pattern does. -/
theorem isAllowed_characterization (content path agent : String) :
    (selectRule (parseRobots content) agent =
      ((mapGet (parseRobots content).rules agent.toLower).getD
        (parseRobots content).defaultRule)) ∧
    (isAllowed (parseRobots content) path agent = true ↔
      (∃ pat ∈ (selectRule (parseRobots content) agent).allow,
          matchesPattern path pat = true) ∨
      ((∀ pat ∈ (selectRule (parseRobots content) agent).allow,
          matchesPattern path pat = false) ∧
        (∀ pat ∈ (selectRule (parseRobots content) agent).disallow,
          matchesPattern path pat = false))) ∧
    (isAllowed (parseRobots content) path agent = false ↔
      ((∀ pat ∈ (selectRule (parseRobots content) agent).allow,
          matchesPattern path pat = false) ∧
        (∃ pat ∈ (selectRule (parseRobots content) agent).disallow,
          matchesPattern path pat = true))) := by
  refine ⟨rfl, ?_, ?_⟩ <;>
  · unfold isAllowed
    rcases ha : (selectRule (parseRobots content) agent).allow.any
      (fun pat => matchesPattern path pat) with _ | _ <;>
      rcases hd : (selectRule (parseRobots content) agent).disallow.any
        (fun pat => matchesPattern path pat) with _ | _ <;>
      simp_all [List.any_eq_true, List.any_eq_false]

/-- Claim C6 (code bug): in `matchesPattern` the first `replace` escapes
`$` together with the other metacharacters, and the later
`.replace(/\$/g, "$")` rewrites `$` to itself — a no-op — so `$` matches
a literal dollar character instead of anchoring the end of the string.
On pattern `/a$`: the code rejects path `/a` (which the specified
end-anchor semantics accepts) and accepts path `/a$b` (which the
specified semantics rejects). -/
theorem dollar_is_literal_not_anchor :
    matchesPattern "/a" "/a$" = false ∧
    specMatchesPattern "/a" "/a$" = true ∧
    matchesPattern "/a$b" "/a$" = true ∧
    specMatchesPattern "/a$b" "/a$" = false := by
  refine ⟨?_, ?_, ?_, ?_⟩ <;> decide

/-! ### Rate limiter: `RateLimiter` in `src/route.ts`

`waitForSlot` is asynchronous only through `sleep`; everything else is a
pure computation on the per-domain record list.  It is embedded as a
function from the current record list of the requested domain, the first
`Date.now()` reading, the `Math.random()` sample, and the `Date.now()`
reading taken after the sleep, to the sleep duration and the new record
list stored for the domain. -/

/-- `RateLimitConfig` (all values in milliseconds / requests per minute). -/
structure RateLimitConfig where
  requestsPerMinute : ℚ
  minDelay : ℚ
  maxDelay : ℚ

/-- `RequestRecord`: a request timestamp with its count (always 1 for
records pushed by `waitForSlot`). -/
structure RequestRecord where
  timestamp : ℚ
  count : ℚ
  deriving DecidableEq

/-- `RateLimiter.waitForSlot` for one domain: purge records older than
one minute, sleep either until the oldest record leaves the window
(when the budget is reached) or a jittered politeness delay, then
append the new request record.  `headD ⟨0, 0⟩` stands for
`recentRecords[0]`, which the source only reads when the budget check
succeeded (with a positive budget the list is then non-empty). -/
def waitForSlot (cfg : RateLimitConfig) (records : List RequestRecord)
    (now rand now2 : ℚ) : ℚ × List RequestRecord :=
  let recentRecords := records.filter (fun r => now - r.timestamp < 60000)
  let totalRequests := (recentRecords.map (fun r => r.count)).sum
  let wait :=
    if cfg.requestsPerMinute ≤ totalRequests then
      max (60000 - (now - (recentRecords.headD ⟨0, 0⟩).timestamp)) cfg.minDelay
    else
      cfg.minDelay + rand * (cfg.maxDelay - cfg.minDelay)
  (wait, recentRecords ++ [⟨now2, 1⟩])

/-- Sum of the counts of records that all carry count 1. -/
theorem sum_counts_eq_length (l : List RequestRecord)
    (h : ∀ r ∈ l, r.count = 1) :
    (l.map (fun r => r.count)).sum = l.length := by
  induction l with
  | nil => simp
  | cons a t ih =>
    have ha : a.count = 1 := h a (by simp)
    have ht : ∀ r ∈ t, r.count = 1 := fun r hr => h r (by simp [hr])
    simp [ha, ih ht, add_comm]

/-- Claim C2: with a positive budget, `minDelay ≤ maxDelay`, a random
sample in `[0, 1)`, unit counts and chronologically ordered records:
when the rolling 60-second window already holds at least
`requestsPerMinute` requests, `waitForSlot` sleeps exactly
`max (60000 - (now - oldestTimestamp)) minDelay` where the oldest
timestamp is the head (and minimum) of the purged window; otherwise it
sleeps a jittered delay inside `[minDelay, maxDelay]`; in both cases the
stored record list is the purged window with the new request timestamp
appended after the wait. -/
theorem waitForSlot_spec (cfg : RateLimitConfig)
    (records : List RequestRecord) (now rand now2 : ℚ)
    (hbudget : 0 < cfg.requestsPerMinute)
    (hminmax : cfg.minDelay ≤ cfg.maxDelay)
    (hrand0 : 0 ≤ rand) (hrand1 : rand < 1)
    (hcount : ∀ r ∈ records, r.count = 1)
    (hsorted : records.Pairwise (fun a b => a.timestamp ≤ b.timestamp)) :
    ((waitForSlot cfg records now rand now2).2 =
        records.filter (fun r => now - r.timestamp < 60000) ++ [⟨now2, 1⟩]) ∧
    ((cfg.requestsPerMinute ≤
        ((records.filter (fun r => now - r.timestamp < 60000)).length : ℚ)) →
      ∃ oldest,
        (records.filter (fun r => now - r.timestamp < 60000)).head? = some oldest ∧
        (∀ r ∈ records.filter (fun r => now - r.timestamp < 60000),
          oldest.timestamp ≤ r.timestamp) ∧
        (waitForSlot cfg records now rand now2).1 =
          max (60000 - (now - oldest.timestamp)) cfg.minDelay) ∧
    ((((records.filter (fun r => now - r.timestamp < 60000)).length : ℚ) <
        cfg.requestsPerMinute) →
      cfg.minDelay ≤ (waitForSlot cfg records now rand now2).1 ∧
      (waitForSlot cfg records now rand now2).1 ≤ cfg.maxDelay) := by
  set recent := records.filter (fun r => now - r.timestamp < 60000) with hrec
  have hcount2 : ∀ r ∈ recent, r.count = 1 := by
    intro r hr
    exact hcount r (List.mem_of_mem_filter hr)
  have hsum : (recent.map (fun r => r.count)).sum = recent.length :=
    sum_counts_eq_length recent hcount2
  have hsorted2 : recent.Pairwise (fun a b => a.timestamp ≤ b.timestamp) :=
    hsorted.filter _
  refine ⟨rfl, ?_, ?_⟩
  · intro hfull
    have hpos : 0 < (recent.length : ℚ) := lt_of_lt_of_le hbudget hfull
    have hne : recent ≠ [] := by
      intro h0
      rw [h0] at hpos
      simp at hpos
    obtain ⟨oldest, tl, hcons⟩ := List.exists_cons_of_ne_nil hne
    refine ⟨oldest, by rw [hcons]; rfl, ?_, ?_⟩
    · intro r hr
      rw [hcons] at hr hsorted2
      rcases List.mem_cons.mp hr with h | h
      · rw [h]
      · exact (List.pairwise_cons.mp hsorted2).1 r h
    · show (if cfg.requestsPerMinute ≤ (recent.map (fun r => r.count)).sum then
          max (60000 - (now - (recent.headD ⟨0, 0⟩).timestamp)) cfg.minDelay
        else cfg.minDelay + rand * (cfg.maxDelay - cfg.minDelay)) =
          max (60000 - (now - oldest.timestamp)) cfg.minDelay
      rw [hsum, if_pos hfull, hcons]
      rfl
  · intro hunder
    have hcond : ¬ cfg.requestsPerMinute ≤ (recent.map (fun r => r.count)).sum := by
      rw [hsum]
      exact not_le.mpr hunder
    have hwait : (waitForSlot cfg records now rand now2).1 =
        cfg.minDelay + rand * (cfg.maxDelay - cfg.minDelay) := by
      show (if cfg.requestsPerMinute ≤ (recent.map (fun r => r.count)).sum then
          max (60000 - (now - (recent.headD ⟨0, 0⟩).timestamp)) cfg.minDelay
        else cfg.minDelay + rand * (cfg.maxDelay - cfg.minDelay)) =
          cfg.minDelay + rand * (cfg.maxDelay - cfg.minDelay)
      rw [if_neg hcond]
    have hd : 0 ≤ cfg.maxDelay - cfg.minDelay := by linarith
    constructor
    · rw [hwait]
      nlinarith
    · rw [hwait]
      nlinarith

/-- Concrete check of `waitForSlot_spec`: budget 2, delays fixed at 100,
two requests at times 0 and 10, third call at time 1000 — the limiter
sleeps 59000 ms, exactly until the request at time 0 leaves the window. -/
theorem waitForSlot_spec_witness :
    (0 : ℚ) < 2 ∧ (100 : ℚ) ≤ 100 ∧ (0 : ℚ) ≤ 0 ∧ (0 : ℚ) < 1 ∧
    ((2 : ℚ) ≤
      (([⟨0, 1⟩, ⟨10, 1⟩] : List RequestRecord).filter
        (fun r => 1000 - r.timestamp < 60000)).length →
      ∃ oldest,
        (([⟨0, 1⟩, ⟨10, 1⟩] : List RequestRecord).filter
          (fun r => 1000 - r.timestamp < 60000)).head? = some oldest ∧
        (∀ r ∈ ([⟨0, 1⟩, ⟨10, 1⟩] : List RequestRecord).filter
          (fun r => 1000 - r.timestamp < 60000), oldest.timestamp ≤ r.timestamp) ∧
        (waitForSlot ⟨2, 100, 100⟩ [⟨0, 1⟩, ⟨10, 1⟩] 1000 0 1500).1 =
          max (60000 - (1000 - oldest.timestamp)) 100) ∧
    (waitForSlot ⟨2, 100, 100⟩ [⟨0, 1⟩, ⟨10, 1⟩] 1000 0 1500).1 = 59000 := by
  have h := waitForSlot_spec ⟨2, 100, 100⟩ [⟨0, 1⟩, ⟨10, 1⟩] 1000 0 1500
    (by norm_num) (by norm_num) (by norm_num) (by norm_num)
    (by decide) (by decide)
  exact ⟨by norm_num, by norm_num, by norm_num, by norm_num, h.2.1,
    by simp [waitForSlot]; norm_num⟩

/-! ### Job scheduler: `src/job-manager.ts`

Database rows are modelled as `Job` values and every store update is
assumed to succeed (the source merely logs update failures).  Timestamps
are milliseconds since the epoch (`Date.now()`), as `Int`;
`toISOString()` is an injective rendering of such a timestamp, so the
`scheduled_at` string column is modelled by the timestamp itself. -/

/-- The `status` column of a `scraping_jobs` row. -/
inductive JobStatus where
  | pending
  | running
  | completed
  | failed
  deriving DecidableEq

/-- The `Job` record of `src/job-manager.ts`. -/
structure Job where
  id : String
  source_id : String
  url : String
  status : JobStatus
  priority : ℤ
  scheduled_at : ℤ
  started_at : Option ℤ := none
  completed_at : Option ℤ := none
  error_message : Option String := none
  retry_count : ℕ
  max_retries : ℕ
  deriving DecidableEq

/-- The status field of a `PipelineOrchestrator.runPipeline` result. -/
inductive PipelineStatus where
  | success
  | partialSuccess
  | failed
  deriving DecidableEq

/-- What one `runPipeline` invocation did: returned a result with a
status and error list, or threw with a message. -/
inductive PipelineOutcome where
  | result (status : PipelineStatus) (errors : List String)
  | exn (msg : String)
  deriving DecidableEq

/-- Does this outcome take `executeJob` into its `catch` block?
A returned status other than `success`/`partial` is rethrown as
`new Error(result.errors.join(", "))`. -/
def outcomeFails : PipelineOutcome → Bool
  | .result .success _ => false
  | .result .partialSuccess _ => false
  | .result .failed _ => true
  | .exn _ => true

/-- The `errorMessage` computed in the `catch` block. -/
def failureMessage : PipelineOutcome → String
  | .result _ errors => String.intercalate ", " errors
  | .exn msg => msg

/-- `JobManager.createJob`: a fresh row with status `pending`, the given
priority, the requested schedule time (defaulting to now), retry count 0
and `max_retries` hard-coded to 3. -/
def createJob (sourceId url : String) (priority : ℤ)
    (scheduledAt : Option ℤ) (now : ℤ) (id : String) : Job :=
  { id := id, source_id := sourceId, url := url, status := JobStatus.pending,
    priority := priority, scheduled_at := scheduledAt.getD now,
    retry_count := 0, max_retries := 3 }

/-- `JobManager.executeJob`: mark the job `running`, run the pipeline,
then either complete the job, reschedule it as `pending` with an
incremented retry count and exponential backoff, or mark it `failed`
once retries are exhausted.  `startNow` and `finishNow` are the clock
readings taken before and after the pipeline run. -/
def executeJob (job : Job) (outcome : PipelineOutcome)
    (startNow finishNow : ℤ) : Job :=
  let j := { job with status := JobStatus.running, started_at := some startNow }
  match outcome with
  | .result .success _ | .result .partialSuccess _ =>
    { j with status := JobStatus.completed, completed_at := some finishNow }
  | o =>
    let errorMessage := failureMessage o
    if j.retry_count < j.max_retries then
      { j with status := JobStatus.pending,
               retry_count := j.retry_count + 1,
               error_message := some errorMessage,
               scheduled_at := finishNow + 60000 * 2 ^ j.retry_count }
    else
      { j with status := JobStatus.failed,
               completed_at := some finishNow,
               error_message := some errorMessage }

/-- Claim C3: when the pipeline outcome is a failure (status `failed` or
an exception), `executeJob` with `retryCount < maxRetries` resets the
status to `pending`, increments the retry count by exactly one, stores
the error message, and schedules the retry at
`now + 60000 * 2 ^ (old retryCount)`; with retries exhausted it marks
the job `failed` with the error message and leaves the retry count
unchanged. -/
theorem executeJob_failure_spec (job : Job) (outcome : PipelineOutcome)
    (t1 t2 : ℤ) (hfail : outcomeFails outcome = true) :
    (job.retry_count < job.max_retries →
      (executeJob job outcome t1 t2).status = JobStatus.pending ∧
      (executeJob job outcome t1 t2).retry_count = job.retry_count + 1 ∧
      (executeJob job outcome t1 t2).error_message = some (failureMessage outcome) ∧
      (executeJob job outcome t1 t2).scheduled_at = t2 + 60000 * 2 ^ job.retry_count) ∧
    (job.max_retries ≤ job.retry_count →
      (executeJob job outcome t1 t2).status = JobStatus.failed ∧
      (executeJob job outcome t1 t2).error_message = some (failureMessage outcome) ∧
      (executeJob job outcome t1 t2).retry_count = job.retry_count ∧
      (executeJob job outcome t1 t2).scheduled_at = job.scheduled_at) := by
  constructor
  · intro hlt
    cases outcome with
    | result s errors =>
      cases s with
      | success => simp [outcomeFails] at hfail
      | partialSuccess => simp [outcomeFails] at hfail
      | failed => simp [executeJob, if_pos hlt]
    | exn msg => simp [executeJob, if_pos hlt]
  · intro hge
    have hnlt : ¬ job.retry_count < job.max_retries := not_lt.mpr hge
    cases outcome with
    | result s errors =>
      cases s with
      | success => simp [outcomeFails] at hfail
      | partialSuccess => simp [outcomeFails] at hfail
      | failed => simp [executeJob, if_neg hnlt]
    | exn msg => simp [executeJob, if_neg hnlt]

/-- Concrete check of `executeJob_failure_spec`: a fresh job (retry
count 0, max 3) whose pipeline throws is rescheduled as `pending` with
retry count 1 and backoff `60000 * 2 ^ 0` after the failure time. -/
theorem executeJob_failure_spec_witness :
    outcomeFails (PipelineOutcome.exn "boom") = true ∧
    (createJob "src" "https://x/y" 0 none 0 "job1").retry_count <
      (createJob "src" "https://x/y" 0 none 0 "job1").max_retries ∧
    (executeJob (createJob "src" "https://x/y" 0 none 0 "job1")
      (PipelineOutcome.exn "boom") 1 5).status = JobStatus.pending ∧
    (executeJob (createJob "src" "https://x/y" 0 none 0 "job1")
      (PipelineOutcome.exn "boom") 1 5).retry_count = 1 ∧
    (executeJob (createJob "src" "https://x/y" 0 none 0 "job1")
      (PipelineOutcome.exn "boom") 1 5).error_message = some "boom" ∧
    (executeJob (createJob "src" "https://x/y" 0 none 0 "job1")
      (PipelineOutcome.exn "boom") 1 5).scheduled_at = 5 + 60000 * 2 ^ 0 := by
  have h := (executeJob_failure_spec (createJob "src" "https://x/y" 0 none 0 "job1")
    (PipelineOutcome.exn "boom") 1 5 (by decide)).1 (by decide)
  exact ⟨by decide, by decide, h.1, h.2.1, h.2.2.1, h.2.2.2⟩

/-- One scheduler-driven step on a job: the scheduler only selects
`pending` jobs (`getNextJob` filters on status), so a non-pending job is
left untouched; a pending job goes through `executeJob` with some
pipeline outcome and clock readings. -/
def schedulerStep (job : Job) (s : PipelineOutcome × ℤ × ℤ) : Job :=
  if job.status = JobStatus.pending then executeJob job s.1 s.2.1 s.2.2 else job

/-- A job driven through a sequence of scheduler steps. -/
def runTrace (job : Job) (steps : List (PipelineOutcome × ℤ × ℤ)) : Job :=
  steps.foldl schedulerStep job

/-- Claim C4 counterexample: a freshly created job (`maxRetries = 3`)
subjected to exactly 3 consecutive execution failures is still
`pending` with retry count 3 — not `failed` as the claim states; the
fourth consecutive failure is the one that makes it `failed`. -/
theorem three_failures_leave_job_pending :
    (runTrace (createJob "src" "https://x/y" 0 none 0 "job1")
      [(PipelineOutcome.exn "e1", 1, 2), (PipelineOutcome.exn "e2", 3, 4),
        (PipelineOutcome.exn "e3", 5, 6)]).status = JobStatus.pending ∧
    (runTrace (createJob "src" "https://x/y" 0 none 0 "job1")
      [(PipelineOutcome.exn "e1", 1, 2), (PipelineOutcome.exn "e2", 3, 4),
        (PipelineOutcome.exn "e3", 5, 6)]).retry_count = 3 ∧
    ¬ (runTrace (createJob "src" "https://x/y" 0 none 0 "job1")
      [(PipelineOutcome.exn "e1", 1, 2), (PipelineOutcome.exn "e2", 3, 4),
        (PipelineOutcome.exn "e3", 5, 6)]).status = JobStatus.failed := by
  refine ⟨?_, ?_, ?_⟩ <;> decide

/-- One scheduler step never pushes the retry count past the maximum and
never changes the maximum. -/
theorem schedulerStep_invariant (j : Job) (s : PipelineOutcome × ℤ × ℤ)
    (h : j.retry_count ≤ j.max_retries) :
    (schedulerStep j s).retry_count ≤ j.max_retries ∧
    (schedulerStep j s).max_retries = j.max_retries := by
  unfold schedulerStep
  by_cases hp : j.status = JobStatus.pending
  · rw [if_pos hp]
    obtain ⟨o, t1, t2⟩ := s
    by_cases hlt : j.retry_count < j.max_retries
    · cases o with
      | result st errors =>
        cases st <;> simp [executeJob, if_pos hlt] <;> omega
      | exn msg => simp [executeJob, if_pos hlt]; omega
    · cases o with
      | result st errors =>
        cases st <;> simp [executeJob, if_neg hlt] <;> omega
      | exn msg => simp [executeJob, if_neg hlt]; omega
  · rw [if_neg hp]
    exact ⟨h, rfl⟩

/-- The retry-count bound holds along every trace. -/
theorem runTrace_invariant (steps : List (PipelineOutcome × ℤ × ℤ)) (j : Job)
    (h : j.retry_count ≤ j.max_retries) :
    (runTrace j steps).retry_count ≤ j.max_retries ∧
    (runTrace j steps).max_retries = j.max_retries := by
  induction steps generalizing j with
  | nil => exact ⟨h, rfl⟩
  | cons s rest ih =>
    have hs := schedulerStep_invariant j s h
    have := ih (schedulerStep j s) (hs.2 ▸ hs.1)
    rw [runTrace] at *
    simp only [List.foldl_cons]
    exact ⟨hs.2 ▸ this.1, hs.2 ▸ this.2⟩

/-- A non-pending job is never touched again by scheduler steps. -/
theorem runTrace_terminal (steps : List (PipelineOutcome × ℤ × ℤ)) (j : Job)
    (h : ¬ j.status = JobStatus.pending) :
    runTrace j steps = j := by
  induction steps with
  | nil => rfl
  | cons s rest ih =>
    rw [runTrace, List.foldl_cons, schedulerStep, if_neg h]
    exact ih

/-- A failing step on a pending job with retries remaining increments
the retry count and leaves the job pending. -/
theorem schedulerStep_fail_pending (j : Job) (s : PipelineOutcome × ℤ × ℤ)
    (hp : j.status = JobStatus.pending) (hf : outcomeFails s.1 = true)
    (hlt : j.retry_count < j.max_retries) :
    (schedulerStep j s).status = JobStatus.pending ∧
    (schedulerStep j s).retry_count = j.retry_count + 1 ∧
    (schedulerStep j s).max_retries = j.max_retries := by
  obtain ⟨o, t1, t2⟩ := s
  rw [schedulerStep, if_pos hp]
  cases o with
  | result st errors =>
    cases st with
    | success => simp [outcomeFails] at hf
    | partialSuccess => simp [outcomeFails] at hf
    | failed => simp [executeJob, if_pos hlt]
  | exn msg => simp [executeJob, if_pos hlt]

/-- A failing step on a pending job with retries exhausted marks it
failed and keeps the retry count. -/
theorem schedulerStep_fail_exhausted (j : Job) (s : PipelineOutcome × ℤ × ℤ)
    (hp : j.status = JobStatus.pending) (hf : outcomeFails s.1 = true)
    (hge : j.max_retries ≤ j.retry_count) :
    (schedulerStep j s).status = JobStatus.failed ∧
    (schedulerStep j s).retry_count = j.retry_count := by
  obtain ⟨o, t1, t2⟩ := s
  rw [schedulerStep, if_pos hp]
  have hnlt : ¬ j.retry_count < j.max_retries := not_lt.mpr hge
  cases o with
  | result st errors =>
    cases st with
    | success => simp [outcomeFails] at hf
    | partialSuccess => simp [outcomeFails] at hf
    | failed => simp [executeJob, if_neg hnlt]
  | exn msg => simp [executeJob, if_neg hnlt]

/-- `n` consecutive failing steps on a pending job leave it pending with
the retry count raised by `n`, as long as `n` retries remain. -/
theorem runTrace_failures (steps : List (PipelineOutcome × ℤ × ℤ)) (j : Job)
    (hp : j.status = JobStatus.pending)
    (hfails : ∀ s ∈ steps, outcomeFails s.1 = true)
    (hroom : j.retry_count + steps.length ≤ j.max_retries) :
    (runTrace j steps).status = JobStatus.pending ∧
    (runTrace j steps).retry_count = j.retry_count + steps.length ∧
    (runTrace j steps).max_retries = j.max_retries := by
  induction steps generalizing j with
  | nil => exact ⟨hp, by simp [runTrace], rfl⟩
  | cons s rest ih =>
    have hf : outcomeFails s.1 = true := hfails s (by simp)
    have hlt : j.retry_count < j.max_retries := by
      simp at hroom
      omega
    have hstep := schedulerStep_fail_pending j s hp hf hlt
    have hrest := ih (schedulerStep j s) hstep.1
      (fun s2 hs2 => hfails s2 (by simp [hs2]))
      (by rw [hstep.2.1, hstep.2.2]; simp at hroom ⊢; omega)
    have hcons : runTrace j (s :: rest) = runTrace (schedulerStep j s) rest := rfl
    rw [hcons]
    refine ⟨hrest.1, ?_, ?_⟩
    · rw [hrest.2.1, hstep.2.1]
      simp
      omega
    · rw [hrest.2.2, hstep.2.2]

/-- Claim C4 (amended): for a job created pending with retry count 0 and
maximum retries `M`, and driven only by scheduler steps: the retry count
never exceeds `M` (in particular whenever the status is `pending`), and
after exactly `M + 1` consecutive execution failures — not `M` as the
claim stated — the job's status is `failed`, the retry count equals `M`,
and no later scheduler step changes the job again. -/
theorem retry_backoff_invariant (j0 : Job) (M : ℕ)
    (steps : List (PipelineOutcome × ℤ × ℤ))
    (h0 : j0.status = JobStatus.pending) (h1 : j0.retry_count = 0)
    (h2 : j0.max_retries = M) :
    (runTrace j0 steps).retry_count ≤ M ∧
    ((∀ s ∈ steps, outcomeFails s.1 = true) → steps.length = M + 1 →
      (runTrace j0 steps).status = JobStatus.failed ∧
      (runTrace j0 steps).retry_count = M ∧
      ∀ more, runTrace (runTrace j0 steps) more = runTrace j0 steps) := by
  constructor
  · have := runTrace_invariant steps j0 (by omega)
    omega
  · intro hfails hlen
    have hsplit : steps = steps.take M ++ steps.drop M := (List.take_append_drop M steps).symm
    have hlen1 : (steps.take M).length = M := by
      rw [List.length_take]
      omega
    have hmid := runTrace_failures (steps.take M) j0 h0
      (fun s hs => hfails s (List.mem_of_mem_take hs))
      (by omega)
    obtain ⟨s1, hdrop⟩ : ∃ s1, steps.drop M = [s1] := by
      have : (steps.drop M).length = 1 := by
        rw [List.length_drop]
        omega
      match hd : steps.drop M with
      | [] => rw [hd] at this; simp at this
      | [a] => exact ⟨a, rfl⟩
      | a :: b :: t => rw [hd] at this; simp at this
    have hmidjob := hmid
    set jmid := runTrace j0 (steps.take M) with hjmid
    have hge : jmid.max_retries ≤ jmid.retry_count := by
      rw [hmidjob.2.1, hmidjob.2.2]
      omega
    have hf1 : outcomeFails s1.1 = true := by
      apply hfails
      have : s1 ∈ steps.drop M := by rw [hdrop]; simp
      exact List.mem_of_mem_drop this
    have hlast := schedulerStep_fail_exhausted jmid s1 hmidjob.1 hf1 hge
    have hrun : runTrace j0 steps = schedulerStep jmid s1 := by
      conv_lhs => rw [hsplit]
      rw [runTrace, List.foldl_append, hdrop]
      rfl
    refine ⟨?_, ?_, ?_⟩
    · rw [hrun, hlast.1]
    · rw [hrun, hlast.2, hmidjob.2.1, h1, hlen1]
      omega
    · intro more
      apply runTrace_terminal
      rw [hrun, hlast.1]
      simp

/-- Concrete check of `retry_backoff_invariant`: the created job
(`maxRetries = 3`) after 4 consecutive failures is `failed` with retry
count 3 and stays unchanged under further steps. -/
theorem retry_backoff_invariant_witness :
    (runTrace (createJob "src" "https://x/y" 0 none 0 "job1")
      [(PipelineOutcome.exn "e1", 1, 2), (PipelineOutcome.exn "e2", 3, 4),
        (PipelineOutcome.exn "e3", 5, 6), (PipelineOutcome.exn "e4", 7, 8)]).retry_count ≤ 3 ∧
    (runTrace (createJob "src" "https://x/y" 0 none 0 "job1")
      [(PipelineOutcome.exn "e1", 1, 2), (PipelineOutcome.exn "e2", 3, 4),
        (PipelineOutcome.exn "e3", 5, 6), (PipelineOutcome.exn "e4", 7, 8)]).status =
      JobStatus.failed ∧
    (runTrace (createJob "src" "https://x/y" 0 none 0 "job1")
      [(PipelineOutcome.exn "e1", 1, 2), (PipelineOutcome.exn "e2", 3, 4),
        (PipelineOutcome.exn "e3", 5, 6), (PipelineOutcome.exn "e4", 7, 8)]).retry_count = 3 ∧
    ∀ more, runTrace (runTrace (createJob "src" "https://x/y" 0 none 0 "job1")
      [(PipelineOutcome.exn "e1", 1, 2), (PipelineOutcome.exn "e2", 3, 4),
        (PipelineOutcome.exn "e3", 5, 6), (PipelineOutcome.exn "e4", 7, 8)]) more =
      runTrace (createJob "src" "https://x/y" 0 none 0 "job1")
      [(PipelineOutcome.exn "e1", 1, 2), (PipelineOutcome.exn "e2", 3, 4),
        (PipelineOutcome.exn "e3", 5, 6), (PipelineOutcome.exn "e4", 7, 8)] := by
  have h := retry_backoff_invariant (createJob "src" "https://x/y" 0 none 0 "job1") 3
    [(PipelineOutcome.exn "e1", 1, 2), (PipelineOutcome.exn "e2", 3, 4),
      (PipelineOutcome.exn "e3", 5, 6), (PipelineOutcome.exn "e4", 7, 8)]
    (by decide) (by decide) (by decide)
  have h2 := h.2 (by decide) (by decide)
  exact ⟨h.1, h2.1, h2.2.1, h2.2.2⟩

/-! ### Crawl executor: `EthicalScraper.scrape` in `src/scraper.ts`

`scrape` is embedded as a function of the environment it observes: the
`respectRobotsTxt` flag, the result of `checkRobotsTxt` (a boolean —
the robots check itself is fail-open and out of this claim's scope),
and the outcome of the network fetch.  It returns the updated audit-log
list together with the result: the source throws on denial, non-success
status, or a fetch-level error, modelled as `Except`.  Metadata
extraction (best-effort regexes over the body) does not influence the
audit log and is left out of the model. -/

/-- A `ScrapeLog` entry (`timestamp` is the `new Date()` reading). -/
structure ScrapeLog where
  url : String
  timestamp : ℤ
  allowed : Bool
  reason : Option String := none
  statusCode : Option ℕ := none
  deriving DecidableEq

/-- What the `fetch` call did: threw (network-level failure), or
returned a response with a status; for an OK response the body read
(`response.text()`) may itself fail, carried as `body = none`. -/
inductive FetchOutcome where
  | netError
  | resp (status : ℕ) (statusText : String) (contentType : Option String)
      (body : Option String) (lastModified : Option String)
  deriving DecidableEq

/-- `Response.ok`: status in the inclusive range 200–299. -/
def jsOk (status : ℕ) : Bool :=
  200 ≤ status && status ≤ 299

/-- The error a `scrape` call throws. -/
inductive ScrapeError where
  | robotsDisallowed
  | httpError (status : ℕ)
  | fetchFailed
  deriving DecidableEq

/-- The successful result of `scrape` (metadata extraction omitted). -/
structure ScrapeResult where
  url : String
  content : String
  contentType : String
  timestamp : ℤ
  statusCode : ℕ
  deriving DecidableEq

/-- `EthicalScraper.scrape`: robots check (entry logged on denial, then
throw), rate-limiter wait (no log effect), fetch; non-OK responses are
logged then thrown; OK responses are logged after the body is read; a
fetch-level exception is rethrown by the `catch` block without touching
the log.  Returns the new log list and the outcome. -/
def scrape (respectRobotsTxt robotsAllowed : Bool) (fetch : FetchOutcome)
    (url : String) (t : ℤ) (logs : List ScrapeLog) :
    List ScrapeLog × Except ScrapeError ScrapeResult :=
  if respectRobotsTxt && !robotsAllowed then
    (logs ++ [{ url := url, timestamp := t, allowed := false,
                reason := some "Blocked by robots.txt" }],
      Except.error ScrapeError.robotsDisallowed)
  else
    match fetch with
    | FetchOutcome.netError => (logs, Except.error ScrapeError.fetchFailed)
    | FetchOutcome.resp status _ contentType body _ =>
      if !jsOk status then
        (logs ++ [{ url := url, timestamp := t, allowed := true,
                    statusCode := some status }],
          Except.error (ScrapeError.httpError status))
      else
        match body with
        | none => (logs, Except.error ScrapeError.fetchFailed)
        | some content =>
          (logs ++ [{ url := url, timestamp := t, allowed := true,
                      statusCode := some status }],
            Except.ok { url := url, content := content,
                        contentType := contentType.getD "text/html",
                        timestamp := t, statusCode := status })

/-- Claim C5 counterexample: a fetch-level failure (the `fetch` promise
rejects, e.g. a network error) appends no audit-log entry at all — the
`catch` block rethrows without logging — so not every attempt produces
exactly one entry. -/
theorem fetch_failure_not_logged :
    (scrape true true FetchOutcome.netError "https://x/y" 0 []).1.length = 0 ∧
    (scrape true true FetchOutcome.netError "https://x/y" 0 []).2 =
      Except.error ScrapeError.fetchFailed := by
  exact ⟨rfl, rfl⟩

/-- Claim C5 (amended): a `scrape` call appends exactly one audit entry
— carrying the URL, timestamp, allowance outcome, and the HTTP status
when a response was received — in the robots-denied case (then throwing
`RobotsDisallowed`), the non-success-status case (then throwing the
HTTP error) and the success case (then returning the result); but a
fetch-level failure — a rejected fetch promise, or a failed body read
on an OK response — appends no entry and rethrows the failure. -/
theorem scrape_log_spec (respectRobotsTxt robotsAllowed : Bool)
    (fetch : FetchOutcome) (url : String) (t : ℤ) (logs : List ScrapeLog) :
    (respectRobotsTxt = true → robotsAllowed = false →
      (scrape respectRobotsTxt robotsAllowed fetch url t logs).1 =
        logs ++ [{ url := url, timestamp := t, allowed := false,
                   reason := some "Blocked by robots.txt" }] ∧
      (scrape respectRobotsTxt robotsAllowed fetch url t logs).2 =
        Except.error ScrapeError.robotsDisallowed) ∧
    (¬ (respectRobotsTxt = true ∧ robotsAllowed = false) →
      ∀ status statusText contentType body lastModified,
        fetch = FetchOutcome.resp status statusText contentType body lastModified →
        (jsOk status = false →
          (scrape respectRobotsTxt robotsAllowed fetch url t logs).1 =
            logs ++ [{ url := url, timestamp := t, allowed := true,
                       statusCode := some status }] ∧
          (scrape respectRobotsTxt robotsAllowed fetch url t logs).2 =
            Except.error (ScrapeError.httpError status)) ∧
        (∀ content, jsOk status = true → body = some content →
          (scrape respectRobotsTxt robotsAllowed fetch url t logs).1 =
            logs ++ [{ url := url, timestamp := t, allowed := true,
                       statusCode := some status }] ∧
          (scrape respectRobotsTxt robotsAllowed fetch url t logs).2 =
            Except.ok { url := url, content := content,
                        contentType := contentType.getD "text/html",
                        timestamp := t, statusCode := status }) ∧
        (jsOk status = true → body = none →
          (scrape respectRobotsTxt robotsAllowed fetch url t logs).1 = logs ∧
          (scrape respectRobotsTxt robotsAllowed fetch url t logs).2 =
            Except.error ScrapeError.fetchFailed)) ∧
    (¬ (respectRobotsTxt = true ∧ robotsAllowed = false) →
      fetch = FetchOutcome.netError →
        (scrape respectRobotsTxt robotsAllowed fetch url t logs).1 = logs ∧
        (scrape respectRobotsTxt robotsAllowed fetch url t logs).2 =
          Except.error ScrapeError.fetchFailed) := by
  refine ⟨?_, ?_, ?_⟩
  · intro hr ha
    constructor <;> simp [scrape, hr, ha]
  · intro hno status statusText contentType body lastModified hf
    have hcond : (respectRobotsTxt && !robotsAllowed) = false := by
      cases respectRobotsTxt <;> cases robotsAllowed <;> simp_all
    refine ⟨?_, ?_, ?_⟩
    · intro hok
      constructor <;> simp [scrape, hcond, hf, hok]
    · intro content hok hbody
      constructor <;> simp [scrape, hcond, hf, hok, hbody]
    · intro hok hbody
      constructor <;> simp [scrape, hcond, hf, hok, hbody]
  · intro hno hf
    have hcond : (respectRobotsTxt && !robotsAllowed) = false := by
      cases respectRobotsTxt <;> cases robotsAllowed <;> simp_all
    constructor <;> simp [scrape, hcond, hf]

/-- Concrete check of `scrape_log_spec`: a robots-denied call appends
one entry with `allowed := false`; an allowed call answered with
HTTP 404 appends one entry with status code 404 and throws the HTTP
error; and an allowed call whose OK response's body read fails appends
no entry and rethrows the failure. -/
theorem scrape_log_spec_witness :
    (scrape true false FetchOutcome.netError "https://x/y" 7 []).1 =
      [{ url := "https://x/y", timestamp := 7, allowed := false,
         reason := some "Blocked by robots.txt" }] ∧
    (scrape true true (FetchOutcome.resp 404 "Not Found" none none none)
        "https://x/y" 7 []).1 =
      [{ url := "https://x/y", timestamp := 7, allowed := true,
         statusCode := some 404 }] ∧
    (scrape true true (FetchOutcome.resp 200 "OK" none none none)
        "https://x/y" 7 []).1 = ([] : List ScrapeLog) ∧
    (scrape true true (FetchOutcome.resp 200 "OK" none none none)
        "https://x/y" 7 []).2 = Except.error ScrapeError.fetchFailed := by
  refine ⟨?_, ?_, ?_, ?_⟩
  · have h := ((scrape_log_spec true false FetchOutcome.netError
      "https://x/y" 7 []).1 rfl rfl).1
    simpa using h
  · have h := (((scrape_log_spec true true
      (FetchOutcome.resp 404 "Not Found" none none none) "https://x/y" 7 []).2.1
      (by simp) 404 "Not Found" none none none rfl).1 (by decide)).1
    simpa using h
  · have h := (((scrape_log_spec true true
      (FetchOutcome.resp 200 "OK" none none none) "https://x/y" 7 []).2.1
      (by simp) 200 "OK" none none none rfl).2.2 (by decide) rfl).1
    simpa using h
  · exact (((scrape_log_spec true true
      (FetchOutcome.resp 200 "OK" none none none) "https://x/y" 7 []).2.1
      (by simp) 200 "OK" none none none rfl).2.2 (by decide) rfl).2

/-! ### Chunking: `chunkText` in `src/embeddings.ts`

The `while` loop mutates a single `start` offset.  JavaScript numbers can
go negative here (`start = start + breakPoint + 1 - overlap`), so offsets
are modelled as `Int` and `String.prototype.slice` with its
negative-index clamping is modelled by `jsSlice`.  The loop has no
termination guarantee (see the C9 divergence below), so it is embedded
with explicit fuel: `none` means the fuel ran out, i.e. the loop was
still running.  Each iteration is recorded as a `ChunkStep` — its window
start, the cut end of the substring pushed, and the next start — and the
returned chunks are recovered from the steps exactly as the source
pushes them: `trim` of the slice from `start` to the cut end, with empty
chunks filtered out at the end. -/

/-- Index clamping of JavaScript `String.prototype.slice`: a negative
index counts from the end (floored at 0), a non-negative one is capped
at the length. -/
def jsIdx (len i : ℤ) : ℤ :=
  if i < 0 then max (len + i) 0 else min i len

/-- JavaScript `s.slice(a, b)` (empty when the clamped start is at or
past the clamped end). -/
def jsSlice (s : List Char) (a b : ℤ) : List Char :=
  (s.drop (jsIdx s.length a).toNat).take ((jsIdx s.length b) - (jsIdx s.length a)).toNat

/-- JavaScript `s.lastIndexOf(c)` for a one-character needle: the
largest index holding `c`, or `-1`. -/
def lastIdx (s : List Char) (c : Char) : ℤ :=
  match s with
  | [] => -1
  | x :: xs =>
    let r := lastIdx xs c
    if 0 ≤ r then r + 1 else if x = c then 0 else -1

/-- `end = Math.min(start + maxChunkSize, text.length)`. -/
def winEnd (text : List Char) (maxChunkSize start : ℤ) : ℤ :=
  min (start + maxChunkSize) (text.length : ℤ)

/-- `breakPoint = Math.max(chunk.lastIndexOf("."), chunk.lastIndexOf("\n"))`
over the current window. -/
def breakPoint (text : List Char) (maxChunkSize start : ℤ) : ℤ :=
  let chunk := jsSlice text start (winEnd text maxChunkSize start)
  max (lastIdx chunk '.') (lastIdx chunk '\n')

/-- The observable data of one loop iteration: the window start, the cut
end (exclusive) of the substring pushed, and the start of the next
iteration. -/
structure ChunkStep where
  start : ℤ
  cutEnd : ℤ
  next : ℤ
  deriving DecidableEq

/-- One iteration of the `chunkText` loop body at offset `start`:
if a sentence break exists at a positive offset and the window end is
before the text end, cut at the break (inclusive) and move the next
start back by `overlap`; otherwise cut at the window end and continue
there.  The trailing `if (start >= end) start = end` guard is the inner
conditional of the first branch (in the second branch the new start
already equals the window end). -/
def chunkStep (text : List Char) (maxChunkSize overlap start : ℤ) : ChunkStep :=
  let e := winEnd text maxChunkSize start
  let bp := breakPoint text maxChunkSize start
  if 0 < bp ∧ e < (text.length : ℤ) then
    let next0 := start + bp + 1 - overlap
    ⟨start, start + bp + 1, if e ≤ next0 then e else next0⟩
  else
    ⟨start, e, e⟩

/-- The `while (start < text.length)` loop, with fuel; returns the list
of iterations, or `none` if the fuel is exhausted first. -/
def chunkLoop (text : List Char) (maxChunkSize overlap : ℤ) :
    ℕ → ℤ → Option (List ChunkStep)
  | 0, _ => none
  | fuel + 1, start =>
    if start < (text.length : ℤ) then
      (chunkLoop text maxChunkSize overlap fuel
          (chunkStep text maxChunkSize overlap start).next).map
        (fun ps => chunkStep text maxChunkSize overlap start :: ps)
    else
      some []

/-- The substring pushed by one iteration: in both branches it is
`text.slice(start, cutEnd).trim()`. -/
def chunkPiece (text : List Char) (st : ChunkStep) : List Char :=
  jsTrimList (jsSlice text st.start st.cutEnd)

/-- `chunkText(text, maxChunkSize, overlap)` (defaults 1000 and 200),
with fuel: the pushed chunks with the empty ones filtered out, or
`none` if the loop had not terminated after `fuel` iterations. -/
def chunkTextFuel (fuel : ℕ) (text : List Char) (maxChunkSize overlap : ℤ) :
    Option (List (List Char)) :=
  (chunkLoop text maxChunkSize overlap fuel 0).map
    (fun ps => (ps.map (chunkPiece text)).filter (fun c => 0 < c.length))

theorem chunkLoop_zero (text : List Char) (m o start : ℤ) :
    chunkLoop text m o 0 start = none := rfl

theorem chunkLoop_succ (text : List Char) (m o : ℤ) (n : ℕ) (start : ℤ)
    (h : start < (text.length : ℤ)) :
    chunkLoop text m o (n + 1) start =
      (chunkLoop text m o n (chunkStep text m o start).next).map
        (fun ps => chunkStep text m o start :: ps) := by
  simp only [chunkLoop]
  rw [if_pos h]

theorem chunkLoop_succ_done (text : List Char) (m o : ℤ) (n : ℕ) (start : ℤ)
    (h : ¬ start < (text.length : ℤ)) :
    chunkLoop text m o (n + 1) start = some [] := by
  simp only [chunkLoop]
  rw [if_neg h]

/-- Claim C9 (code bug): the loop does not terminate on every input.
With `maxChunkSize = 4`, `overlap = 3` (a configuration the claim
covers: `0 ≤ overlap < maxChunkSize`) and text `"ab.cdef"`, the first
window is `"ab.c"`, the sentence break is at offset 2, so the next
start is `0 + 2 + 1 - 3 = 0`: the guard `if (start >= end) start = end`
does not fire (`0 < 4`), and the loop repeats the same iteration
forever.  No amount of fuel makes `chunkText` return. -/
theorem chunkText_diverges (fuel : ℕ) :
    chunkTextFuel fuel ("ab.cdef".data) 4 3 = none := by
  suffices h : chunkLoop ("ab.cdef".data) 4 3 fuel 0 = none by
    unfold chunkTextFuel
    rw [h]
    rfl
  induction fuel with
  | zero => rfl
  | succ n ih =>
    rw [chunkLoop_succ _ _ _ _ _ (by decide),
      show (chunkStep ("ab.cdef".data) 4 3 0).next = 0 from by decide, ih]
    rfl

/-- The loop never moves the cut or the next start past the text end,
and each step starts at the current offset. -/
theorem chunkStep_next_le (text : List Char) (m o start : ℤ) :
    (chunkStep text m o start).start = start ∧
    (chunkStep text m o start).next ≤ (text.length : ℤ) := by
  have he : winEnd text m start ≤ (text.length : ℤ) := min_le_right _ _
  simp only [chunkStep]
  split
  · dsimp only
    refine ⟨rfl, ?_⟩
    split
    · exact he
    · rename_i hn
      omega
  · exact ⟨rfl, he⟩

theorem jsIdx_of_nonneg (len i : ℤ) (h0 : 0 ≤ i) (h1 : i ≤ len) :
    jsIdx len i = i := by
  unfold jsIdx
  rw [if_neg (by omega)]
  exact min_eq_left h1

/-- `jsSlice` on in-range indices is an ordinary drop-and-take. -/
theorem jsSlice_eq_of_range (s : List Char) (a b : ℤ) (h0 : 0 ≤ a)
    (hab : a ≤ b) (hb : b ≤ (s.length : ℤ)) :
    jsSlice s a b = (s.drop a.toNat).take (b.toNat - a.toNat) := by
  unfold jsSlice
  rw [jsIdx_of_nonneg _ _ h0 (le_trans hab hb),
    jsIdx_of_nonneg _ _ (le_trans h0 hab) hb]
  congr 1
  omega

/-- A slice starting at or past the end is empty. -/
theorem jsSlice_of_ge (s : List Char) (a : ℤ) (h0 : 0 ≤ a)
    (h1 : (s.length : ℤ) ≤ a) :
    jsSlice s a (s.length : ℤ) = [] := by
  unfold jsSlice
  rw [jsIdx_of_nonneg _ _ (by omega) (le_refl _)]
  have : jsIdx (s.length : ℤ) a = (s.length : ℤ) := by
    unfold jsIdx
    rw [if_neg (by omega)]
    omega
  rw [this]
  simp

/-- The slice of the whole range is the text. -/
theorem jsSlice_full (s : List Char) : jsSlice s 0 (s.length : ℤ) = s := by
  rw [jsSlice_eq_of_range s 0 _ (le_refl 0) (by positivity) (le_refl _)]
  simp

/-- Adjacent in-range slices concatenate. -/
theorem jsSlice_append (s : List Char) (a b c : ℤ) (h0 : 0 ≤ a) (hab : a ≤ b)
    (hbc : b ≤ c) (hc : c ≤ (s.length : ℤ)) :
    jsSlice s a b ++ jsSlice s b c = jsSlice s a c := by
  rw [jsSlice_eq_of_range s a b h0 hab (le_trans hbc hc),
    jsSlice_eq_of_range s b c (le_trans h0 hab) hbc hc,
    jsSlice_eq_of_range s a c h0 (le_trans hab hbc) hc]
  have hd : s.drop b.toNat = (s.drop a.toNat).drop (b.toNat - a.toNat) := by
    rw [List.drop_drop]
    congr 1
    omega
  rw [hd, ← List.take_add]
  congr 1
  omega

/-- When every iteration's next start advances (or stays put), the
non-overlap portions `text[start, next)` tile the text from the initial
offset to the end. -/
theorem chunkLoop_join (text : List Char) (m o : ℤ) :
    ∀ (fuel : ℕ) (start : ℤ) (ps : List ChunkStep),
      0 ≤ start →
      chunkLoop text m o fuel start = some ps →
      (∀ p ∈ ps, p.start ≤ p.next) →
      (ps.map (fun p => jsSlice text p.start p.next)).flatten =
        jsSlice text start (text.length : ℤ) := by
  intro fuel
  induction fuel with
  | zero =>
    intro start ps h0 hrun hadv
    simp [chunkLoop_zero] at hrun
  | succ n ih =>
    intro start ps h0 hrun hadv
    by_cases hlt : start < (text.length : ℤ)
    · rw [chunkLoop_succ _ _ _ _ _ hlt] at hrun
      obtain ⟨ps', hrun', rfl⟩ := Option.map_eq_some'.mp hrun
      have hs := chunkStep_next_le text m o start
      have hadv0 : (chunkStep text m o start).start ≤
          (chunkStep text m o start).next := hadv _ (by simp)
      have h0' : 0 ≤ (chunkStep text m o start).next := by
        rw [hs.1] at hadv0
        omega
      have hIH := ih (chunkStep text m o start).next ps' h0' hrun'
        (fun p hp => hadv p (by simp [hp]))
      simp only [List.map_cons, List.flatten_cons]
      rw [hIH, hs.1]
      have hadv0' : start ≤ (chunkStep text m o start).next := by
        have h1 := hs.1
        omega
      exact jsSlice_append text start _ _ h0 hadv0' hs.2 (le_refl _)
    · rw [chunkLoop_succ_done _ _ _ _ _ hlt] at hrun
      have : ps = [] := by
        injection hrun with h
        exact h.symm
      rw [this]
      rw [jsSlice_of_ge text start h0 (by omega)]
      rfl

/-- Claim C7 counterexample: `chunkText("hi ")` (default configuration)
returns the single chunk `"hi"`, whose trailing space was removed by the
`trim` — concatenating the chunks' non-overlap portions (here the whole
single chunk) yields `"hi"`, not the original text `"hi "`: a character
of the input is lost. -/
theorem chunk_loses_whitespace :
    chunkTextFuel 2 ("hi ".data) 1000 200 = some [("hi".data)] ∧
    ("hi".data) ≠ ("hi ".data) := by
  exact ⟨by decide, by decide⟩

/-- Claim C7 (amended): on every run on which the loop terminates with
every iteration's start offset advancing monotonically (the source's
progress guard does not enforce this — see the C9 divergence — but it
holds e.g. whenever `overlap = 0` or no window has a sentence break),
the untrimmed non-overlap portions `text[start_k, start_{k+1})` of the
cut windows concatenate exactly to the original text; the returned
chunks are the `trim`s of the windows `text[start_k, cutEnd_k)` with
empty chunks discarded — so the original text is reconstructed only up
to the whitespace trimmed at window edges — and no returned chunk is
empty. -/
theorem chunk_reconstruction (fuel : ℕ) (text : List Char) (m o : ℤ)
    (ps : List ChunkStep)
    (hrun : chunkLoop text m o fuel 0 = some ps)
    (hadv : ∀ p ∈ ps, p.start ≤ p.next) :
    (ps.map (fun p => jsSlice text p.start p.next)).flatten = text ∧
    chunkTextFuel fuel text m o =
      some ((ps.map (chunkPiece text)).filter (fun c => 0 < c.length)) ∧
    (∀ cs, chunkTextFuel fuel text m o = some cs → ∀ c ∈ cs, c ≠ []) := by
  refine ⟨?_, ?_, ?_⟩
  · rw [chunkLoop_join text m o fuel 0 ps (le_refl 0) hrun hadv]
    exact jsSlice_full text
  · unfold chunkTextFuel
    rw [hrun]
    rfl
  · intro cs hcs c hc
    unfold chunkTextFuel at hcs
    obtain ⟨ps2, hrun2, rfl⟩ := Option.map_eq_some'.mp hcs
    have := List.of_mem_filter hc
    intro hnil
    rw [hnil] at this
    simp at this

/-- Concrete check of `chunk_reconstruction`: on `"ab.cdef"` with window
4 and overlap 1 the loop runs three advancing iterations, the chunks are
`"ab."`, `".cde"`, `"f"`, and the non-overlap portions `"ab"`, `".cde"`,
`"f"` concatenate back to `"ab.cdef"`. -/
theorem chunk_reconstruction_witness :
    chunkLoop ("ab.cdef".data) 4 1 5 0 =
      some [⟨0, 3, 2⟩, ⟨2, 6, 6⟩, ⟨6, 7, 7⟩] ∧
    (([⟨0, 3, 2⟩, ⟨2, 6, 6⟩, ⟨6, 7, 7⟩] : List ChunkStep).map
      (fun p => jsSlice ("ab.cdef".data) p.start p.next)).flatten = "ab.cdef".data ∧
    chunkTextFuel 5 ("ab.cdef".data) 4 1 =
      some ["ab.".data, ".cde".data, "f".data] := by
  have hrun : chunkLoop ("ab.cdef".data) 4 1 5 0 =
      some [⟨0, 3, 2⟩, ⟨2, 6, 6⟩, ⟨6, 7, 7⟩] := by decide
  have h := chunk_reconstruction 5 ("ab.cdef".data) 4 1
    [⟨0, 3, 2⟩, ⟨2, 6, 6⟩, ⟨6, 7, 7⟩] hrun (by decide)
  refine ⟨hrun, h.1, ?_⟩
  rw [h.2.1]
  decide

/-! ### Retrieval engine: `hybridSearch` in `src/semantic-search.ts`

`hybridSearch` runs the semantic search and the lexical title search and
then merges, sorts and truncates — a pure computation on the two result
lists, which are the inputs of the embedding (the store and the
embedding service behind them are external).  The `Map` keyed by
structured-record identifier is the insertion-ordered association list
defined above; `Array.prototype.sort` with comparator
`(a, b) => b.similarity - a.similarity` is a stable comparison sort by
descending similarity, modelled with `List.insertionSort` (no verified
claim depends on the order of entries with equal similarity). -/

/-- A `SearchResult` view-model row. -/
structure SearchResult where
  id : String
  regulationId : Option String := none
  title : String
  content : String
  summary : Option String := none
  jurisdiction : Option String := none
  category : Option String := none
  priority : Option String := none
  similarity : ℚ
  url : String
  effectiveDate : Option String := none
  deriving DecidableEq

/-- A row of the `regulations` table as the keyword search returns it. -/
structure Regulation where
  id : String
  title : String
  summary : Option String := none
  jurisdiction : Option String := none
  category : Option String := none
  priority : Option String := none
  source_url : String
  effective_date : Option String := none
  deriving DecidableEq

/-- The `SearchResult` built from a keyword-matched regulation, with the
default similarity 0.5. -/
def keywordResult (regulation : Regulation) : SearchResult :=
  { id := regulation.id, regulationId := some regulation.id,
    title := regulation.title, content := regulation.summary.getD "",
    summary := regulation.summary, jurisdiction := regulation.jurisdiction,
    category := regulation.category, priority := regulation.priority,
    similarity := 1 / 2, url := regulation.source_url,
    effectiveDate := regulation.effective_date }

/-- `if (result.regulationId) mergedResults.set(result.regulationId, result)`:
JavaScript truthiness skips both a missing identifier and the empty
string. -/
def addSemantic (m : List (String × SearchResult)) (r : SearchResult) :
    List (String × SearchResult) :=
  match r.regulationId with
  | some rid => if rid = "" then m else mapSet m rid r
  | none => m

/-- `if (!mergedResults.has(regulation.id)) mergedResults.set(...)`. -/
def addKeyword (m : List (String × SearchResult)) (g : Regulation) :
    List (String × SearchResult) :=
  if mapHas m g.id then m else mapSet m g.id (keywordResult g)

/-- The merged, deduplicated map: semantic entries inserted first, then
keyword entries only into empty slots. -/
def mergedMap (semanticResults : List SearchResult)
    (keywordResults : List Regulation) : List (String × SearchResult) :=
  keywordResults.foldl addKeyword (semanticResults.foldl addSemantic [])

/-- Descending-similarity order (the comparator
`(a, b) => b.similarity - a.similarity`). -/
def simGE (a b : SearchResult) : Prop :=
  b.similarity ≤ a.similarity

instance : DecidableRel simGE :=
  fun a b => inferInstanceAs (Decidable (b.similarity ≤ a.similarity))

instance : IsTotal SearchResult simGE :=
  ⟨fun a b => le_total b.similarity a.similarity⟩

instance : IsTrans SearchResult simGE :=
  ⟨fun _ _ _ hab hbc => le_trans hbc hab⟩

/-- `SemanticSearchEngine.hybridSearch`, from the two search-result
lists on: merge into the map, sort the values by similarity descending,
truncate to `limit`. -/
def hybridSearch (semanticResults : List SearchResult)
    (keywordResults : List Regulation) (limit : ℕ) : List SearchResult :=
  (List.insertionSort simGE
    ((mergedMap semanticResults keywordResults).map Prod.snd)).take limit

/-- Every entry of the merged map carries its own key as its
structured-record identifier. -/
def EntryKeyed (m : List (String × SearchResult)) : Prop :=
  ∀ p ∈ m, p.2.regulationId = some p.1

/-- The keys of the merged map are distinct. -/
def KeysNodup (m : List (String × SearchResult)) : Prop :=
  (m.map Prod.fst).Nodup

theorem mem_mapSet {α : Type} (m : List (String × α)) (k : String) (v : α)
    (p : String × α) (hp : p ∈ mapSet m k v) : p = (k, v) ∨ p ∈ m := by
  induction m with
  | nil =>
    simp [mapSet] at hp
    left
    simp [hp]
  | cons q rest ih =>
    obtain ⟨k0, v0⟩ := q
    unfold mapSet at hp
    by_cases hk : k0 = k
    · rw [if_pos hk] at hp
      rcases List.mem_cons.mp hp with h | h
      · left
        rw [h, hk]
      · right
        exact List.mem_cons_of_mem _ h
    · rw [if_neg hk] at hp
      rcases List.mem_cons.mp hp with h | h
      · right
        rw [h]
        exact List.mem_cons_self _ _
      · rcases ih h with h2 | h2
        · left
          exact h2
        · right
          exact List.mem_cons_of_mem _ h2

theorem keys_mapSet_sub {α : Type} (m : List (String × α)) (k a : String)
    (v : α) (ha : a ∈ (mapSet m k v).map Prod.fst) :
    a ∈ m.map Prod.fst ∨ a = k := by
  obtain ⟨p, hp, hpa⟩ := List.mem_map.mp ha
  rcases mem_mapSet m k v p hp with h | h
  · right
    rw [h] at hpa
    exact hpa.symm
  · left
    exact List.mem_map.mpr ⟨p, h, hpa⟩

theorem keysNodup_mapSet {α : Type} (m : List (String × α)) (k : String)
    (v : α) (h : (m.map Prod.fst).Nodup) :
    ((mapSet m k v).map Prod.fst).Nodup := by
  induction m with
  | nil => simp [mapSet]
  | cons q rest ih =>
    obtain ⟨k0, v0⟩ := q
    unfold mapSet
    by_cases hk : k0 = k
    · rw [if_pos hk]
      simpa using h
    · rw [if_neg hk]
      simp only [List.map_cons, List.nodup_cons] at h ⊢
      refine ⟨?_, ih h.2⟩
      intro hmem
      rcases keys_mapSet_sub rest k k0 v hmem with h2 | h2
      · exact h.1 h2
      · exact hk h2

theorem mapGet_set_self {α : Type} (m : List (String × α)) (k : String)
    (v : α) : mapGet (mapSet m k v) k = some v := by
  induction m with
  | nil => simp [mapSet, mapGet]
  | cons q rest ih =>
    obtain ⟨k0, v0⟩ := q
    unfold mapSet
    by_cases hk : k0 = k
    · rw [if_pos hk]
      simp [mapGet, hk]
    · rw [if_neg hk]
      simp [mapGet, hk, ih]

theorem mapGet_set_other {α : Type} (m : List (String × α)) (k k2 : String)
    (v : α) (hne : k2 ≠ k) : mapGet (mapSet m k v) k2 = mapGet m k2 := by
  induction m with
  | nil => simp [mapSet, mapGet, Ne.symm hne]
  | cons q rest ih =>
    obtain ⟨k0, v0⟩ := q
    unfold mapSet
    by_cases hk : k0 = k
    · rw [if_pos hk]
      unfold mapGet
      rw [if_neg (by rw [hk]; exact fun h => hne h.symm),
        if_neg (by rw [hk]; exact fun h => hne h.symm)]
    · rw [if_neg hk]
      unfold mapGet
      by_cases h2 : k0 = k2
      · rw [if_pos h2, if_pos h2]
      · rw [if_neg h2, if_neg h2]
        exact ih

/-- The merged map is `EntryKeyed` and has distinct keys. -/
theorem mergedMap_invariant (sem : List SearchResult)
    (kw : List Regulation) :
    EntryKeyed (mergedMap sem kw) ∧ KeysNodup (mergedMap sem kw) := by
  have step1 : ∀ (l : List SearchResult) (m : List (String × SearchResult)),
      EntryKeyed m ∧ KeysNodup m →
      EntryKeyed (l.foldl addSemantic m) ∧ KeysNodup (l.foldl addSemantic m) := by
    intro l
    induction l with
    | nil => intro m hm; exact hm
    | cons r rest ih =>
      intro m hm
      refine ih (addSemantic m r) ?_
      rcases hr : r.regulationId with _ | rid
      · simpa [addSemantic, hr] using hm
      · by_cases he : rid = ""
        · simpa [addSemantic, hr, he] using hm
        · have hset : addSemantic m r = mapSet m rid r := by
            simp [addSemantic, hr, he]
          rw [hset]
          constructor
          · intro p hp
            rcases mem_mapSet m rid r p hp with h | h
            · rw [h]
              exact hr
            · exact hm.1 p h
          · exact keysNodup_mapSet m rid r hm.2
  have step2 : ∀ (l : List Regulation) (m : List (String × SearchResult)),
      EntryKeyed m ∧ KeysNodup m →
      EntryKeyed (l.foldl addKeyword m) ∧ KeysNodup (l.foldl addKeyword m) := by
    intro l
    induction l with
    | nil => intro m hm; exact hm
    | cons g rest ih =>
      intro m hm
      refine ih (addKeyword m g) ?_
      unfold addKeyword
      by_cases hh : mapHas m g.id
      · rw [if_pos hh]
        exact hm
      · rw [if_neg hh]
        constructor
        · intro p hp
          rcases mem_mapSet m g.id (keywordResult g) p hp with h | h
          · rw [h]
            rfl
          · exact hm.1 p h
        · exact keysNodup_mapSet m g.id (keywordResult g) hm.2
  exact step2 kw _ (step1 sem [] ⟨by intro p hp; simp at hp, by simp [KeysNodup]⟩)

/-- Claim C10: a semantic result with no structured-record identifier
never reaches `hybridSearch`'s output — only identifier-carrying entries
enter the merged map, every output element carries an identifier, and in
particular a semantic result with `regulationId = none` is absent no
matter how high its similarity is. -/
theorem hybrid_requires_regulation_id (sem : List SearchResult)
    (kw : List Regulation) (limit : ℕ) :
    (∀ e ∈ hybridSearch sem kw limit, e.regulationId.isSome = true) ∧
    (∀ r ∈ sem, r.regulationId = none → r ∉ hybridSearch sem kw limit) := by
  have hmem : ∀ e ∈ hybridSearch sem kw limit, e.regulationId.isSome = true := by
    intro e he
    have h1 : e ∈ List.insertionSort simGE
        ((mergedMap sem kw).map Prod.snd) := List.mem_of_mem_take he
    have h2 : e ∈ (mergedMap sem kw).map Prod.snd :=
      (List.perm_insertionSort simGE _).subset h1
    obtain ⟨p, hp, hpe⟩ := List.mem_map.mp h2
    have := (mergedMap_invariant sem kw).1 p hp
    rw [hpe] at this
    rw [this]
    rfl
  refine ⟨hmem, ?_⟩
  intro r hr hnone hmemr
  have := hmem r hmemr
  rw [hnone] at this
  simp at this

/-- Concrete check of `hybrid_requires_regulation_id`: a semantic result
without a `regulationId` vanishes from the output even though its
similarity 0.9 beats the keyword entry's 0.5. -/
theorem hybrid_requires_regulation_id_witness :
    ({ id := "d0", title := "T", content := "c",
       similarity := 9 / 10, url := "u" } : SearchResult) ∈
      [({ id := "d0", title := "T", content := "c",
          similarity := 9 / 10, url := "u" } : SearchResult)] ∧
    ({ id := "d0", title := "T", content := "c",
       similarity := 9 / 10, url := "u" } : SearchResult).regulationId = none ∧
    ({ id := "d0", title := "T", content := "c",
       similarity := 9 / 10, url := "u" } : SearchResult) ∉
      hybridSearch
        [({ id := "d0", title := "T", content := "c",
            similarity := 9 / 10, url := "u" } : SearchResult)]
        [({ id := "g1", title := "G", source_url := "ug" } : Regulation)] 10 := by
  refine ⟨List.mem_singleton.mpr rfl, rfl, ?_⟩
  exact (hybrid_requires_regulation_id
    [{ id := "d0", title := "T", content := "c",
       similarity := 9 / 10, url := "u" }]
    [{ id := "g1", title := "G", source_url := "ug" }] 10).2
    _ (List.mem_singleton.mpr rfl) rfl

/-- Folding semantic results whose identifiers all differ from `K`
leaves the map's entry at `K` unchanged. -/
theorem semFold_get_of_not_mem (l : List SearchResult) (K : String) :
    ∀ m, (∀ r ∈ l, r.regulationId ≠ some K) →
      mapGet (l.foldl addSemantic m) K = mapGet m K := by
  induction l with
  | nil => intro m _; rfl
  | cons r rest ih =>
    intro m hl
    have hr : r.regulationId ≠ some K := hl r (by simp)
    have hstep : mapGet (addSemantic m r) K = mapGet m K := by
      rcases hrid : r.regulationId with _ | rid
      · simp [addSemantic, hrid]
      · by_cases he : rid = ""
        · simp [addSemantic, hrid, he]
        · have hridK : K ≠ rid := by
            rw [hrid] at hr
            intro h
            exact hr (by rw [h])
          rw [show addSemantic m r = mapSet m rid r from by
            simp [addSemantic, hrid, he]]
          exact mapGet_set_other m rid K r hridK
    rw [List.foldl_cons, ih (addSemantic m r) (fun r' h' => hl r' (by simp [h'])),
      hstep]

/-- The unique semantic result carrying identifier `K` becomes the
map's entry at `K`. -/
theorem semFold_get_uniq (l : List SearchResult) (K : String)
    (r : SearchResult) (hK : K ≠ "") (hrid : r.regulationId = some K) :
    ∀ m, r ∈ l → (∀ r' ∈ l, r'.regulationId = some K → r' = r) →
      mapGet (l.foldl addSemantic m) K = some r := by
  induction l with
  | nil => intro m hm; simp at hm
  | cons x rest ih =>
    intro m hmem huniq
    rw [List.foldl_cons]
    by_cases hrest : r ∈ rest
    · exact ih _ hrest (fun r' h' hid => huniq r' (by simp [h']) hid)
    · have hx : x = r := by
        rcases List.mem_cons.mp hmem with h | h
        · exact h.symm
        · exact absurd h hrest
      have hxid : x.regulationId = some K := by rw [hx, hrid]
      have hnone : ∀ r' ∈ rest, r'.regulationId ≠ some K := by
        intro r' h' heq
        have := huniq r' (List.mem_cons_of_mem _ h') heq
        rw [this] at h'
        exact hrest h'
      rw [semFold_get_of_not_mem rest K _ hnone,
        show addSemantic m x = mapSet m K x from by simp [addSemantic, hxid, hK],
        mapGet_set_self, hx]

/-- Folding keyword results never disturbs an already-present entry. -/
theorem kwFold_get_of_has (l : List Regulation) (K : String) :
    ∀ m, mapHas m K = true → mapGet (l.foldl addKeyword m) K = mapGet m K := by
  induction l with
  | nil => intro m _; rfl
  | cons g rest ih =>
    intro m hhas
    rw [List.foldl_cons]
    by_cases hg : mapHas m g.id
    · rw [show addKeyword m g = m from by simp [addKeyword, hg]]
      exact ih m hhas
    · have hne : K ≠ g.id := by
        intro h
        rw [h] at hhas
        exact hg hhas
      have hstep : addKeyword m g = mapSet m g.id (keywordResult g) := by
        simp [addKeyword, hg]
      have hhas2 : mapHas (mapSet m g.id (keywordResult g)) K = true := by
        unfold mapHas
        rw [mapGet_set_other m g.id K _ hne]
        exact hhas
      rw [hstep, ih _ hhas2, mapGet_set_other m g.id K _ hne]

/-- The first keyword regulation with identifier `K` fills an empty
slot at `K`. -/
theorem kwFold_get_first (l : List Regulation) (K : String)
    (gL : Regulation) (hid : gL.id = K) :
    ∀ m, mapGet m K = none → gL ∈ l → (∀ g' ∈ l, g'.id = K → g' = gL) →
      mapGet (l.foldl addKeyword m) K = some (keywordResult gL) := by
  induction l with
  | nil => intro m _ hm; simp at hm
  | cons g rest ih =>
    intro m hnone hmem huniq
    rw [List.foldl_cons]
    by_cases hgK : g.id = K
    · have hgL : g = gL := huniq g (by simp) hgK
      have hnohas : ¬ mapHas m g.id = true := by
        unfold mapHas
        rw [hgK, hnone]
        simp
      have hstep : addKeyword m g = mapSet m K (keywordResult g) := by
        rw [show addKeyword m g = mapSet m g.id (keywordResult g) from by
          simp [addKeyword, hnohas], hgK]
      have hhas2 : mapHas (mapSet m K (keywordResult g)) K = true := by
        unfold mapHas
        rw [mapGet_set_self]
        rfl
      rw [hstep, kwFold_get_of_has rest K _ hhas2, mapGet_set_self, hgL]
    · have hmem' : gL ∈ rest := by
        rcases List.mem_cons.mp hmem with h | h
        · exact absurd (h ▸ hid) hgK
        · exact h
      have hnone' : mapGet (addKeyword m g) K = none := by
        unfold addKeyword
        by_cases hh : mapHas m g.id
        · rw [if_pos hh]
          exact hnone
        · rw [if_neg hh, mapGet_set_other m g.id K _ (fun h => hgK h.symm)]
          exact hnone
      exact ih _ hnone' hmem' (fun g' h' => huniq g' (by simp [h']))

/-- No entry of an `EntryKeyed` map whose keys avoid `K` carries the
identifier `K`. -/
theorem filter_values_nil (K : String) :
    ∀ (m : List (String × SearchResult)), EntryKeyed m →
      K ∉ m.map Prod.fst →
      (m.map Prod.snd).filter (fun e => e.regulationId = some K) = [] := by
  intro m
  induction m with
  | nil => intro _ _; rfl
  | cons p rest ih =>
    intro hek hK
    obtain ⟨k0, v0⟩ := p
    have h0 : v0.regulationId = some k0 := hek (k0, v0) (by simp)
    have hk0 : ¬ k0 = K := by
      intro h
      exact hK (by simp [h])
    simp only [List.map_cons, List.filter_cons]
    rw [if_neg (by simp [h0, hk0])]
    exact ih (fun q hq => hek q (by simp [hq]))
      (fun h => hK (List.mem_cons_of_mem _ h))

/-- In an `EntryKeyed` map with distinct keys, filtering the values on
identifier `K` yields exactly the entry stored at `K` (or nothing). -/
theorem filter_values_get (K : String) :
    ∀ (m : List (String × SearchResult)), EntryKeyed m → KeysNodup m →
      (m.map Prod.snd).filter (fun e => e.regulationId = some K) =
        (match mapGet m K with
        | some v => [v]
        | none => []) := by
  intro m
  induction m with
  | nil => intro _ _; rfl
  | cons p rest ih =>
    intro hek hnd
    obtain ⟨k0, v0⟩ := p
    have h0 : v0.regulationId = some k0 := hek (k0, v0) (by simp)
    have hekr : EntryKeyed rest := fun q hq => hek q (by simp [hq])
    have hnds := hnd
    unfold KeysNodup at hnds
    simp only [List.map_cons, List.nodup_cons] at hnds
    have hndr : KeysNodup rest := hnds.2
    simp only [List.map_cons, List.filter_cons]
    by_cases hk : k0 = K
    · rw [if_pos (by simp [h0, hk])]
      rw [filter_values_nil K rest hekr (by rw [← hk]; exact hnds.1)]
      simp [mapGet, hk]
    · rw [if_neg (by simp [h0, hk])]
      rw [ih hekr hndr]
      simp [mapGet, hk]

/-- The values of an `EntryKeyed`, distinct-key map carry pairwise
distinct identifiers. -/
theorem values_pairwise_ne (m : List (String × SearchResult))
    (hek : EntryKeyed m) (hnd : KeysNodup m) :
    (m.map Prod.snd).Pairwise (fun a b => a.regulationId ≠ b.regulationId) := by
  rw [List.pairwise_map]
  have hkeys : m.Pairwise (fun p q => p.1 ≠ q.1) := by
    unfold KeysNodup at hnd
    exact List.pairwise_map.mp hnd
  refine hkeys.imp_of_mem ?_
  intro p q hp hq hne
  rw [hek p hp, hek q hq]
  intro h
  exact hne (Option.some.inj h)

/-- Claim C8 counterexample: a record returned by both searches need
not appear in the output at all — with `limit = 1`, a semantic
similarity of 3/10 for the shared record and a lexical-only record at
the default 1/2, the lexical-only record wins the single output slot
and the shared record is truncated away, so it does not appear "exactly
once". -/
theorem hybrid_limit_drops_shared_record :
    ({ id := "d1", regulationId := some "g1", title := "R", content := "c",
       similarity := 3 / 10, url := "u" } : SearchResult) ∈
      [({ id := "d1", regulationId := some "g1", title := "R", content := "c",
          similarity := 3 / 10, url := "u" } : SearchResult)] ∧
    ({ id := "g1", title := "G", source_url := "ug" } : Regulation) ∈
      [({ id := "g1", title := "G", source_url := "ug" } : Regulation),
        ({ id := "h1", title := "H", source_url := "uh" } : Regulation)] ∧
    ({ id := "d1", regulationId := some "g1", title := "R", content := "c",
       similarity := 3 / 10, url := "u" } : SearchResult).regulationId =
      some ({ id := "g1", title := "G", source_url := "ug" } : Regulation).id ∧
    hybridSearch
      [({ id := "d1", regulationId := some "g1", title := "R", content := "c",
          similarity := 3 / 10, url := "u" } : SearchResult)]
      [({ id := "g1", title := "G", source_url := "ug" } : Regulation),
        ({ id := "h1", title := "H", source_url := "uh" } : Regulation)] 1 =
      [keywordResult { id := "h1", title := "H", source_url := "uh" }] ∧
    (hybridSearch
      [({ id := "d1", regulationId := some "g1", title := "R", content := "c",
          similarity := 3 / 10, url := "u" } : SearchResult)]
      [({ id := "g1", title := "G", source_url := "ug" } : Regulation),
        ({ id := "h1", title := "H", source_url := "uh" } : Regulation)] 1).filter
      (fun e => e.regulationId = some "g1") = [] := by
    have hsort : hybridSearch
        [({ id := "d1", regulationId := some "g1", title := "R", content := "c",
            similarity := 3 / 10, url := "u" } : SearchResult)]
        [({ id := "g1", title := "G", source_url := "ug" } : Regulation),
          ({ id := "h1", title := "H", source_url := "uh" } : Regulation)] 1 =
        [keywordResult { id := "h1", title := "H", source_url := "uh" }] := by
      simp only [hybridSearch, mergedMap, addSemantic, addKeyword, mapSet,
        mapHas, mapGet, keywordResult, List.foldl_cons, List.foldl_nil,
        List.insertionSort, List.orderedInsert, List.map_cons, List.map_nil]
      norm_num [simGE, keywordResult, List.insertionSort, List.orderedInsert,
        List.take]
    refine ⟨by simp, by simp, rfl, hsort, ?_⟩
    rw [hsort]
    simp [keywordResult]

/-- Claim C8 (amended): in `hybridSearch` the output has at most `limit`
elements, is sorted by similarity descending, and contains at most one
entry per structured-record identifier; whenever the merged set fits
within `limit` (otherwise the similarity-based truncation can drop any
record, including one returned by both searches — see the
counterexample), a record returned by both searches appears exactly
once, as the semantic entry itself (so with the semantic similarity
score, never the lexical default), and a record returned only by the
lexical title search appears exactly once with the default similarity
1/2. -/
theorem hybridSearch_merge_spec (sem : List SearchResult)
    (kw : List Regulation) (limit : ℕ) (r : SearchResult) (g gLex : Regulation)
    (hr : r ∈ sem) (hrid : r.regulationId = some g.id) (hgid : g.id ≠ "")
    (_hg : g ∈ kw)
    (huniq : ∀ r' ∈ sem, r'.regulationId = some g.id → r' = r)
    (hgl : gLex ∈ kw)
    (hnosem : ∀ r' ∈ sem, r'.regulationId ≠ some gLex.id)
    (huniqkw : ∀ g' ∈ kw, g'.id = gLex.id → g' = gLex)
    (hfit : (mergedMap sem kw).length ≤ limit) :
    (hybridSearch sem kw limit).length ≤ limit ∧
    (hybridSearch sem kw limit).Pairwise simGE ∧
    (hybridSearch sem kw limit).Pairwise
      (fun a b => a.regulationId ≠ b.regulationId) ∧
    (hybridSearch sem kw limit).filter
      (fun e => e.regulationId = some g.id) = [r] ∧
    (hybridSearch sem kw limit).filter
      (fun e => e.regulationId = some gLex.id) = [keywordResult gLex] ∧
    (keywordResult gLex).similarity = 1 / 2 := by
  obtain ⟨hek, hnd⟩ := mergedMap_invariant sem kw
  have hperm : (List.insertionSort simGE
      ((mergedMap sem kw).map Prod.snd)).Perm
      ((mergedMap sem kw).map Prod.snd) := List.perm_insertionSort _ _
  have htake : hybridSearch sem kw limit =
      List.insertionSort simGE ((mergedMap sem kw).map Prod.snd) := by
    unfold hybridSearch
    exact List.take_of_length_le
      (by rw [hperm.length_eq, List.length_map]; exact hfit)
  have hget1 : mapGet (mergedMap sem kw) g.id = some r := by
    have hs : mapGet (sem.foldl addSemantic []) g.id = some r :=
      semFold_get_uniq sem g.id r hgid hrid [] hr huniq
    have hhas : mapHas (sem.foldl addSemantic []) g.id = true := by
      unfold mapHas
      rw [hs]
      rfl
    rw [show mergedMap sem kw = kw.foldl addKeyword (sem.foldl addSemantic [])
      from rfl, kwFold_get_of_has kw g.id _ hhas, hs]
  have hget2 : mapGet (mergedMap sem kw) gLex.id = some (keywordResult gLex) := by
    have hs : mapGet (sem.foldl addSemantic []) gLex.id =
        mapGet ([] : List (String × SearchResult)) gLex.id :=
      semFold_get_of_not_mem sem gLex.id [] hnosem
    exact kwFold_get_first kw gLex.id gLex rfl _ hs hgl huniqkw
  refine ⟨List.length_take_le _ _, ?_, ?_, ?_, ?_, rfl⟩
  · exact List.Pairwise.sublist (List.take_sublist _ _)
      (List.sorted_insertionSort simGE _)
  · have hv := values_pairwise_ne (mergedMap sem kw) hek hnd
    have hs : (List.insertionSort simGE
        ((mergedMap sem kw).map Prod.snd)).Pairwise
        (fun a b => a.regulationId ≠ b.regulationId) :=
      (hperm.pairwise_iff (fun hab => Ne.symm hab)).2 hv
    exact List.Pairwise.sublist (List.take_sublist _ _) hs
  · have hfil : ((mergedMap sem kw).map Prod.snd).filter
        (fun e => e.regulationId = some g.id) = [r] := by
      rw [filter_values_get g.id (mergedMap sem kw) hek hnd, hget1]
    refine List.perm_singleton.mp ?_
    rw [htake, ← hfil]
    exact hperm.filter _
  · have hfil : ((mergedMap sem kw).map Prod.snd).filter
        (fun e => e.regulationId = some gLex.id) = [keywordResult gLex] := by
      rw [filter_values_get gLex.id (mergedMap sem kw) hek hnd, hget2]
    refine List.perm_singleton.mp ?_
    rw [htake, ← hfil]
    exact hperm.filter _

/-- Concrete check of `hybridSearch_merge_spec`: with one semantic
result carrying identifier `"g1"` (similarity 9/10), the regulation
`"g1"` also keyword-matched, and a lexical-only regulation `"h1"`,
limit 5: the record `"g1"` appears once as the semantic entry and the
record `"h1"` once at similarity 1/2. -/
theorem hybridSearch_merge_spec_witness :
    (mergedMap
      [({ id := "d1", regulationId := some "g1", title := "R", content := "c",
          similarity := 9 / 10, url := "u" } : SearchResult)]
      [({ id := "g1", title := "G", source_url := "ug" } : Regulation),
        ({ id := "h1", title := "H", source_url := "uh" } : Regulation)]).length ≤ 5 ∧
    (hybridSearch
      [({ id := "d1", regulationId := some "g1", title := "R", content := "c",
          similarity := 9 / 10, url := "u" } : SearchResult)]
      [({ id := "g1", title := "G", source_url := "ug" } : Regulation),
        ({ id := "h1", title := "H", source_url := "uh" } : Regulation)] 5).filter
      (fun e => e.regulationId = some "g1") =
      [{ id := "d1", regulationId := some "g1", title := "R", content := "c",
         similarity := 9 / 10, url := "u" }] ∧
    (hybridSearch
      [({ id := "d1", regulationId := some "g1", title := "R", content := "c",
          similarity := 9 / 10, url := "u" } : SearchResult)]
      [({ id := "g1", title := "G", source_url := "ug" } : Regulation),
        ({ id := "h1", title := "H", source_url := "uh" } : Regulation)] 5).filter
      (fun e => e.regulationId = some "h1") =
      [keywordResult { id := "h1", title := "H", source_url := "uh" }] ∧
    (keywordResult
      { id := "h1", title := "H", source_url := "uh" }).similarity = 1 / 2 := by
  have hfit : (mergedMap
      [({ id := "d1", regulationId := some "g1", title := "R", content := "c",
          similarity := 9 / 10, url := "u" } : SearchResult)]
      [({ id := "g1", title := "G", source_url := "ug" } : Regulation),
        ({ id := "h1", title := "H", source_url := "uh" } : Regulation)]).length ≤ 5 := by
    simp [mergedMap, addSemantic, addKeyword, mapSet, mapHas, mapGet]
  have h := hybridSearch_merge_spec
    [({ id := "d1", regulationId := some "g1", title := "R", content := "c",
        similarity := 9 / 10, url := "u" } : SearchResult)]
    [({ id := "g1", title := "G", source_url := "ug" } : Regulation),
      ({ id := "h1", title := "H", source_url := "uh" } : Regulation)] 5
    { id := "d1", regulationId := some "g1", title := "R", content := "c",
      similarity := 9 / 10, url := "u" }
    { id := "g1", title := "G", source_url := "ug" }
    { id := "h1", title := "H", source_url := "uh" }
    (by simp) rfl (by decide) (by simp)
    (by intro r' h' hid; simp at h'; rw [h'])
    (by simp)
    (by intro r' h' hid; simp at h'; rw [h'] at hid; simp at hid)
    (by
      intro g' h' hid
      rcases List.mem_cons.mp h' with h2 | h2
      · rw [h2] at hid
        simp at hid
      · simpa using h2)
    hfit
  exact ⟨hfit, h.2.2.2.1, h.2.2.2.2.1, h.2.2.2.2.2⟩

end AssureCode
